import Mathlib

/- Formal model of the creator poll core of the wheredhego repository:
   poll lifecycle, ballot storage, vote aggregation, movement tracking and
   archival, translated from app/creatorpoll (routes.py, mysql_routes.py,
   models.py, mysql_models.py).  The application registers either the
   SQLAlchemy flavour (routes.py + models.py) or the MySQL flavour
   (mysql_routes.py + mysql_models.py) of the same component; each claim is
   settled against the flavour its sources cite. -/

namespace Wheredhego

/- ## Clock and schedule resolver

Time is modelled in minutes on a linear axis whose origin is Monday
2025-08-25 at 00:00, matching naive Python datetimes.  With this origin the
weekday and the hour of a time are recovered by integer division, exactly
as datetime.weekday() and datetime.hour, and subtraction of two times
matches datetime subtraction. -/

def minutesPerDay : Int := 1440

/-- Python datetime.weekday() with Monday = 0, Sunday = 6. -/
def weekdayOf (t : Int) : Int := (t.fdiv minutesPerDay).emod 7

/-- Python datetime.hour, in 0..23. -/
def hourOf (t : Int) : Int := (t.emod minutesPerDay).fdiv 60

/-- Python (b - a).days: floor division of the elapsed minutes by one day. -/
def daysBetween (a b : Int) : Int := (b - a).fdiv minutesPerDay

/-- Translated from routes.get_season_start_datetime:
    datetime(2025, 8, 31, 15, 0, 0), a Sunday at 15:00. -/
def routesSeasonStart : Int := 6 * minutesPerDay + 15 * 60

/-- Translated from mysql_routes.get_season_start_datetime:
    datetime(2025, 8, 27, 15, 0, 0), a Wednesday at 15:00. -/
def mysqlSeasonStart : Int := 2 * minutesPerDay + 15 * 60

/-- The Sunday-based cycle day used by routes.get_current_week:
    cycle_day = (weekday + 1) % 7, so Sunday becomes 0. -/
def routesCycleDay (now : Int) : Int := (weekdayOf now + 1).emod 7

/-- The weeks-since-start count of routes.get_current_week, bumped by one
    inside the Thursday-15:00-to-Sunday-15:00 lockout window. -/
def routesBumpedWeeks (now : Int) : Int :=
  let weeksSinceStart := (daysBetween routesSeasonStart now).fdiv 7
  if (routesCycleDay now = 4 ∧ 15 ≤ hourOf now) ∨ routesCycleDay now = 5 ∨
      routesCycleDay now = 6 ∨ (routesCycleDay now = 0 ∧ hourOf now < 15)
  then weeksSinceStart + 1 else weeksSinceStart

/-- Translated from routes.get_current_week: week 0 before the season
    start; otherwise weeks elapsed since the anchor, bumped by one during
    the lockout window, clamped to 1..17. -/
def routesCurrentWeek (now : Int) : Int :=
  if now < routesSeasonStart then 0
  else min (max (routesBumpedWeeks now + 1) 1) 17

/-- Translated from routes.get_current_season. -/
def routesCurrentSeason (now : Int) : Int :=
  if now < routesSeasonStart then 2024 else 2025

/-- Translated from mysql_routes.get_current_week: week 0 before the
    season start; otherwise days elapsed divided by 7 plus one, capped
    at 17. -/
def mysqlCurrentWeek (now : Int) : Int :=
  if now < mysqlSeasonStart then 0
  else min ((daysBetween mysqlSeasonStart now).fdiv 7 + 1) 17

/-- Translated from mysql_routes.get_current_season. -/
def mysqlCurrentSeason (now : Int) : Int :=
  if now < mysqlSeasonStart then 2024 else 2025

/- ## Data model, MySQL flavour (mysql_models.py)

The four relations of the core, as created by CreatorPoll.create_tables and
CreatorBallot.create_tables.  Timestamps that are only written and never
read back by the modelled operations (created_at of votes and ballots,
updated_at, archived_at) are omitted; start_date, end_date and created_at
of polls are kept because get_current_poll and the archival sweep compare
them. -/

/-- One entry of the ballot_data JSON list handled by submit_ballot. -/
structure VoteItem where
  rank : Nat
  team_name : String
  team_conference : String
  team_id : String
  reasoning : String
deriving DecidableEq, Repr

/-- A creator_ballots row.  The id primary key is AUTO_INCREMENT and never
    supplied by submit_ballot, so it is left implicit (row order in the
    list plays the role of insertion order). -/
structure BallotRow where
  poll_id : Nat
  user_id : Nat
  ballot_data : List VoteItem
deriving DecidableEq, Repr

/-- A creator_votes row (the denormalized VoteRow projection). -/
structure VoteRow where
  poll_id : Nat
  user_id : Nat
  team_name : String
  team_conference : String
  team_id : String
  rank_position : Nat
  reasoning : String
deriving DecidableEq, Repr

/-- A creator_polls row. -/
structure PollRow where
  id : Nat
  week_number : Int
  season_year : Int
  start_date : Int
  end_date : Int
  is_active : Bool
  is_archived : Bool
  created_at : Int
deriving DecidableEq, Repr

/-- One entry of the final_rankings JSON list stored by archive_poll.
    The stored avg_rank and points values are determined by vote_count and
    rank_sum (points = max(26 - avg_rank, 0)), so the exact pair is kept
    in their place. -/
structure ArchiveItem where
  rank : Nat
  team_name : String
  vote_count : Nat
  rank_sum : Nat
deriving DecidableEq, Repr

/-- A poll_archives row; poll_id carries a UNIQUE key in the schema. -/
structure ArchiveRow where
  poll_id : Nat
  final_rankings : List ArchiveItem
  total_ballots : Nat
  season_year : Int
  week_number : Int
deriving DecidableEq, Repr

/-- The database state: the four creator poll relations, each as a list of
    rows in insertion order. -/
structure DB where
  polls : List PollRow
  ballots : List BallotRow
  votes : List VoteRow
  archives : List ArchiveRow
deriving DecidableEq, Repr

def emptyDB : DB := ⟨[], [], [], []⟩

/- ## Aggregation engine (CreatorPoll.get_poll_results)

The deployed schema has the user_id column (create_tables adds it), so the
primary path runs: SELECT team_name, COUNT(*), AVG(rank_position) FROM
creator_votes WHERE poll_id = ? GROUP BY team_name ORDER BY avg_rank ASC.
The model groups the vote rows by team name in first-appearance order (the
scan order of the table, which is also the order the Python fallback path
builds its dict in) and sorts stably by average rank, matching the
fallback path literally; for the SQL path, whose tie order between equal
averages is unspecified, this is a deterministic refinement. -/

/-- Distinct elements of a list, keeping first occurrences in order
    (the key order of a Python dict filled by insertion). -/
def firstOccurAux (seen : List String) : List String → List String
  | [] => []
  | x :: xs =>
      if x ∈ seen then firstOccurAux seen xs
      else x :: firstOccurAux (x :: seen) xs

def firstOccurrences (l : List String) : List String := firstOccurAux [] l

/-- The vote rows of one poll, in table order. -/
def pollVotes (db : DB) (poll_id : Nat) : List VoteRow :=
  db.votes.filter (fun v => v.poll_id == poll_id)

/-- One aggregated result row.  The SQL row carries team_name, vote_count
    and avg_rank; the average is represented exactly by the pair
    (rank_sum, vote_count) so that the model stays kernel-computable, and
    the rational value avg_rank is recovered by ResultRow.avg_rank
    below. -/
structure ResultRow where
  team_name : String
  vote_count : Nat
  rank_sum : Nat
deriving DecidableEq, Repr

/-- The avg_rank value of an aggregated row, as an exact rational: the
    idealization of the float mean computed by the source. -/
def ResultRow.avg_rank (r : ResultRow) : Rat :=
  (r.rank_sum : Rat) / (r.vote_count : Rat)

/-- The rank positions recorded for one team among the given vote rows. -/
def ranksFor (rows : List VoteRow) (name : String) : List Nat :=
  (rows.filter (fun v => v.team_name == name)).map (fun v => v.rank_position)

/-- The aggregated row for one team. -/
def groupRow (rows : List VoteRow) (n : String) : ResultRow :=
  let ranks := ranksFor rows n
  { team_name := n, vote_count := ranks.length, rank_sum := ranks.sum }

/-- The average of a row as a fraction with a positive denominator; rows
    produced by the aggregation always have a positive vote_count, the
    zero case only keeps the comparison total. -/
def keyOf (r : ResultRow) : Nat × Nat :=
  if r.vote_count = 0 then (0, 1) else (r.rank_sum, r.vote_count)

/-- Comparison used to sort aggregated rows: ascending average rank,
    decided by cross multiplication of the exact fractions. -/
def byAvgRank (a b : ResultRow) : Prop :=
  (keyOf a).1 * (keyOf b).2 ≤ (keyOf b).1 * (keyOf a).2

/-- Equality of the average-rank keys of two rows, as a Boolean; used to
    state that sorting is stable on ties. -/
def keyEqB (q r : ResultRow) : Bool :=
  (keyOf q).1 * (keyOf r).2 == (keyOf r).1 * (keyOf q).2

instance : DecidableRel byAvgRank :=
  fun a b => inferInstanceAs (Decidable (_ ≤ _))

instance : IsTotal ResultRow byAvgRank := ⟨fun a b => Nat.le_total _ _⟩

instance : IsTrans ResultRow byAvgRank := by
  constructor
  intro a b c hab hbc
  unfold byAvgRank at *
  have hb : 0 < (keyOf b).2 := by unfold keyOf; split <;> simp <;> omega
  have h1 := Nat.mul_le_mul_right (keyOf c).2 hab
  have h2 := Nat.mul_le_mul_right (keyOf a).2 hbc
  have h3 : (keyOf a).1 * (keyOf c).2 * (keyOf b).2 ≤
      (keyOf c).1 * (keyOf a).2 * (keyOf b).2 := by
    calc (keyOf a).1 * (keyOf c).2 * (keyOf b).2
        = (keyOf a).1 * (keyOf b).2 * (keyOf c).2 := by ring
      _ ≤ (keyOf b).1 * (keyOf a).2 * (keyOf c).2 := h1
      _ = (keyOf b).1 * (keyOf c).2 * (keyOf a).2 := by ring
      _ ≤ (keyOf c).1 * (keyOf b).2 * (keyOf a).2 := h2
      _ = (keyOf c).1 * (keyOf a).2 * (keyOf b).2 := by ring
  exact Nat.le_of_mul_le_mul_right h3 hb

/-- Aggregation over a list of vote rows: group by team name, count votes
    and average the ranks per group, sort ascending by average rank
    (stable insertion sort, so ties keep first-appearance order). -/
def aggregateVotes (rows : List VoteRow) : List ResultRow :=
  ((firstOccurrences (rows.map (fun v => v.team_name))).map
    (groupRow rows)).insertionSort byAvgRank

/-- Translated from CreatorPoll.get_poll_results. -/
def get_poll_results (db : DB) (poll_id : Nat) : List ResultRow :=
  aggregateVotes (pollVotes db poll_id)

/- ## Poll store lookups (CreatorPoll) -/

/-- Translated from CreatorPoll.get_poll_by_id (SELECT by primary key). -/
def get_poll_by_id (db : DB) (poll_id : Nat) : Option PollRow :=
  db.polls.find? (fun p => p.id == poll_id)

/-- The first row with the greatest week_number among the given rows
    (ORDER BY week_number DESC LIMIT 1, resolved deterministically by
    keeping the earliest row among equals). -/
def pickMaxWeek : List PollRow → Option PollRow :=
  List.foldl (fun acc p => match acc with
    | none => some p
    | some q => if q.week_number < p.week_number then some p else acc) none

/-- Translated from CreatorPoll.get_previous_week_poll: for week 1 the
    latest archived week of the previous season, otherwise the poll of the
    previous week in the same season. -/
def get_previous_week_poll (db : DB) (week season : Int) : Option PollRow :=
  if week = 1 then
    pickMaxWeek (db.polls.filter (fun p =>
      p.season_year == season - 1 && p.is_archived))
  else
    (db.polls.filter (fun p =>
      p.season_year == season && p.week_number == week - 1)).head?

/-- The poll_archives row of a poll, when one exists (SELECT against the
    UNIQUE poll_id key). -/
def archiveFor (db : DB) (poll_id : Nat) : Option ArchiveRow :=
  db.archives.find? (fun a => a.poll_id == poll_id)

/- ## Movement calculator (CreatorPoll.get_poll_results_with_movement) -/

/-- Points display transform used by the movement and archive code:
    max(26 - avg_rank, 0). -/
def pointsOf (avg : Rat) : Rat := max (26 - avg) 0

/-- Translated from the previous_rankings block of
    CreatorPoll.get_poll_results_with_movement: the snapshot mapping
    team_name to rank from the poll_archives row when one exists for the
    previous poll, otherwise a live aggregation enumerated from rank 1.
    The Python dict is modelled as an association list; its keys come from
    grouped results or archived rankings and are therefore distinct. -/
def rankingsOfPoll (db : DB) (pp : PollRow) : List (String × Nat) :=
  match archiveFor db pp.id with
  | some ar => ar.final_rankings.map (fun r => (r.team_name, r.rank))
  | none => (get_poll_results db pp.id).enum.map
      (fun p => (p.2.team_name, p.1 + 1))

def previousRankings (db : DB) (prev : Option PollRow) : List (String × Nat) :=
  match prev with
  | none => []
  | some pp => rankingsOfPoll db pp

/-- One row of the movement-enhanced results.  As in ResultRow, avg_rank
    and points of the rendered dict are determined by vote_count and
    rank_sum and recovered by the derived functions below. -/
structure EnhancedRow where
  rank : Nat
  team_name : String
  vote_count : Nat
  rank_sum : Nat
  previous_rank : Option Nat
  movement : Option Int
  movement_type : String
deriving DecidableEq, Repr

/-- The avg_rank value rendered for an enhanced row. -/
def EnhancedRow.avg_rank (r : EnhancedRow) : Rat :=
  (r.rank_sum : Rat) / (r.vote_count : Rat)

/-- The points value rendered for an enhanced row. -/
def EnhancedRow.points (r : EnhancedRow) : Rat := pointsOf r.avg_rank

/-- The movement classification of one aggregated row sitting at 1-based
    position i + 1, translated from the enhancement loop of
    CreatorPoll.get_poll_results_with_movement. -/
def enhanceRow (prevRank : List (String × Nat)) (i : Nat) (r : ResultRow) :
    EnhancedRow :=
  let rank := i + 1
  match prevRank.lookup r.team_name with
  | some p =>
      let movement : Int := (p : Int) - (rank : Int)
      { rank := rank, team_name := r.team_name, vote_count := r.vote_count,
        rank_sum := r.rank_sum,
        previous_rank := some p, movement := some movement,
        movement_type :=
          if 0 < movement then "up" else if movement < 0 then "down" else "same" }
  | none =>
      { rank := rank, team_name := r.team_name, vote_count := r.vote_count,
        rank_sum := r.rank_sum,
        previous_rank := none, movement := none, movement_type := "new" }

/-- Translated from CreatorPoll.get_poll_results_with_movement. -/
def get_poll_results_with_movement (db : DB) (poll_id : Nat) : List EnhancedRow :=
  match get_poll_by_id db poll_id with
  | none => []
  | some current_poll =>
      let prev := get_previous_week_poll db current_poll.week_number
        current_poll.season_year
      (get_poll_results db poll_id).enum.map
        (fun p => enhanceRow (previousRankings db prev) p.1 p.2)

/- ## Ballot store (CreatorBallot) -/

/-- Translated from CreatorBallot.submit_ballot.  The creator_ballots
    table created by CreatorBallot.create_tables has only the
    AUTO_INCREMENT id as a unique key (idx_poll_creator and idx_poll_user
    are plain indexes), and submit_ballot never supplies id, so the
    INSERT ... ON DUPLICATE KEY UPDATE clause can never fire and the
    statement always appends a fresh row.  The creator_votes rows for
    (poll_id, user_id) are then deleted and reinserted from ballot_data
    (the deployed schema has the user_id column, so the primary branch
    runs). -/
def submit_ballot (db : DB) (poll_id user_id : Nat)
    (ballot_data : List VoteItem) : DB :=
  { db with
    ballots := db.ballots ++ [⟨poll_id, user_id, ballot_data⟩],
    votes := db.votes.filter
        (fun v => !(v.poll_id == poll_id && v.user_id == user_id)) ++
      ballot_data.map (fun it =>
        ⟨poll_id, user_id, it.team_name, it.team_conference, it.team_id,
         it.rank, it.reasoning⟩) }

/-- Translated from CreatorBallot.get_creator_ballot (fetchone on the
    rows matching poll and user, modelled as the first such row). -/
def get_creator_ballot (db : DB) (poll_id user_id : Nat) :
    Option (List VoteItem) :=
  (db.ballots.find? (fun b =>
    b.poll_id == poll_id && b.user_id == user_id)).map (fun b => b.ballot_data)

/-- Translated from CreatorBallot.get_poll_ballot_count (COUNT of
    creator_ballots rows of the poll). -/
def get_poll_ballot_count (db : DB) (poll_id : Nat) : Nat :=
  (db.ballots.filter (fun b => b.poll_id == poll_id)).length

/- ## Archive manager (CreatorPoll.archive_poll, mysql_routes.archive_polls) -/

/-- The final_rankings list computed by archive_poll: the aggregated
    results enumerated from rank 1, with the points transform. -/
def finalRankingsOf (db : DB) (poll_id : Nat) : List ArchiveItem :=
  (get_poll_results db poll_id).enum.map (fun p =>
    { rank := p.1 + 1, team_name := p.2.team_name,
      vote_count := p.2.vote_count, rank_sum := p.2.rank_sum })

/-- INSERT ... ON DUPLICATE KEY UPDATE against the UNIQUE poll_id key of
    poll_archives: update final_rankings and total_ballots in place when a
    row for the poll exists, append otherwise. -/
def upsertArchive (archives : List ArchiveRow) (row : ArchiveRow) :
    List ArchiveRow :=
  if archives.any (fun a => a.poll_id == row.poll_id) then
    archives.map (fun a =>
      if a.poll_id == row.poll_id then
        { a with final_rankings := row.final_rankings,
                 total_ballots := row.total_ballots }
      else a)
  else archives ++ [row]

/-- The UPDATE creator_polls SET is_archived = TRUE, is_active = FALSE
    WHERE id = poll_id statement, applied to one row. -/
def flagArchived (poll_id : Nat) (p : PollRow) : PollRow :=
  if p.id == poll_id then { p with is_archived := true, is_active := false }
  else p

/-- Translated from CreatorPoll.archive_poll: recompute the final
    rankings, count the ballots, upsert the archive row and flip the poll
    to archived and inactive.  Returns none when the poll does not exist
    (the code returns False). -/
def archive_poll (db : DB) (poll_id : Nat) : Option DB :=
  match get_poll_by_id db poll_id with
  | none => none
  | some poll =>
      some { db with
        archives := upsertArchive db.archives
          ⟨poll_id, finalRankingsOf db poll_id,
           get_poll_ballot_count db poll_id,
           poll.season_year, poll.week_number⟩,
        polls := db.polls.map (flagArchived poll_id) }

/-- The first row with the greatest created_at among the given rows
    (ORDER BY created_at DESC LIMIT 1, resolved deterministically by
    keeping the earliest row among equals). -/
def pickLatest : List PollRow → Option PollRow :=
  List.foldl (fun acc p => match acc with
    | none => some p
    | some q => if q.created_at < p.created_at then some p else acc) none

/-- Translated from CreatorPoll.get_current_poll: the latest created
    active poll whose window contains now. -/
def get_current_poll (db : DB) (now : Int) : Option PollRow :=
  pickLatest (db.polls.filter (fun p =>
    p.is_active && decide (p.start_date ≤ now) && decide (now ≤ p.end_date)))

/-- The ids selected by the archival sweep:
    end_date < NOW() AND is_archived = FALSE AND id != current poll id. -/
def completedPollIds (db : DB) (now : Int) (currentId : Nat) : List Nat :=
  (db.polls.filter (fun p =>
    decide (p.end_date < now) && !p.is_archived && p.id != currentId)).map
    (fun p => p.id)

/-- One iteration of the sweep loop: archive the poll, keeping the state
    unchanged when archive_poll reports failure. -/
def sweepStep (acc : DB) (pid : Nat) : DB := (archive_poll acc pid).getD acc

/-- Translated from mysql_routes.archive_polls: when a current poll
    exists, archive every completed poll in selection order and report
    their ids; when no current poll exists the handler skips the whole
    block and archives nothing. -/
def archive_polls (db : DB) (now : Int) : DB × List Nat :=
  match get_current_poll db now with
  | none => (db, [])
  | some cp =>
      let ids := completedPollIds db now cp.id
      (ids.foldl sweepStep db, ids)

/- ## Results view (mysql_routes.results) -/

/-- An entry of the others-receiving-votes list: name and vote count
    only, no rank and no movement fields. -/
structure OtherRow where
  team_name : String
  vote_count : Nat
deriving DecidableEq, Repr

structure ResultsView where
  rankings : List EnhancedRow
  others : List OtherRow
  total_ballots : Nat
deriving DecidableEq, Repr

/-- Translated from the mysql_routes.results handler: the first 25
    movement-enhanced rows form the ranked list, the remainder is
    projected to team_name and vote_count as others receiving votes.
    Logo lookups are presentation data from the team CSV, out of scope
    here, and are omitted.  Returns none when the poll does not exist
    (the handler redirects). -/
def results_view (db : DB) (poll_id : Nat) : Option ResultsView :=
  match get_poll_by_id db poll_id with
  | none => none
  | some _ =>
      let enhanced := get_poll_results_with_movement db poll_id
      some { rankings := enhanced.take 25,
             others := (enhanced.drop 25).map
               (fun r => ⟨r.team_name, r.vote_count⟩),
             total_ballots := get_poll_ballot_count db poll_id }

/- ## Vote submission handler (mysql_routes.vote, POST branch).
   The validation block is literally the same in routes.vote. -/

inductive VoteOutcome where
  | pollNotFound
  | invalidBallot
  | submitted
deriving DecidableEq, Repr

/-- The ballot_data list built by the vote handler from the posted form:
    for each rank 1..25, the stripped rank_i field, skipped when empty.
    The conference and id of a recognized team come from the CSV lookup
    table, abstracted as functions of the submitted name. -/
def collectBallot (teamField reasoningField : Nat → String)
    (confOf idOf : String → String) : List VoteItem :=
  ((List.range 25).map (fun i => i + 1)).filterMap (fun rank =>
    let name := teamField rank
    if name = "" then none
    else some ⟨rank, name, confOf name, idOf name, reasoningField rank⟩)

/-- Translated from the POST branch of mysql_routes.vote: not-found when
    the poll is missing, rejection with the rank-all-25-teams error when
    fewer than 25 entries were collected, otherwise submit the ballot. -/
def vote_post (db : DB) (poll_id user_id : Nat)
    (teamField reasoningField : Nat → String)
    (confOf idOf : String → String) : VoteOutcome × DB :=
  match get_poll_by_id db poll_id with
  | none => (VoteOutcome.pollNotFound, db)
  | some _ =>
      let ballot_data := collectBallot teamField reasoningField confOf idOf
      if ballot_data.length < 25 then (VoteOutcome.invalidBallot, db)
      else (VoteOutcome.submitted, submit_ballot db poll_id user_id ballot_data)

/- ## Spec reference aggregation (for claim C3 only) -/

/-- Lexicographic comparison of character sequences by code point. -/
def charsLeB : List Char → List Char → Bool
  | [], _ => true
  | _ :: _, [] => false
  | c :: cs, d :: ds =>
      if c = d then charsLeB cs ds else decide (c.toNat < d.toNat)

/-- Lexicographic order on names, by code point. -/
def nameLe (a b : String) : Prop := charsLeB a.data b.data = true

instance : DecidableRel nameLe :=
  fun a b => inferInstanceAs (Decidable (charsLeB a.data b.data = true))

/-- Modelled from the spec, not from the source: the reference
    aggregation of claim C3 breaks average-rank ties deterministically by
    item_name (averages again compared exactly by cross multiplication). -/
def byAvgRankThenName (a b : ResultRow) : Prop :=
  (keyOf a).1 * (keyOf b).2 < (keyOf b).1 * (keyOf a).2 ∨
    ((keyOf a).1 * (keyOf b).2 = (keyOf b).1 * (keyOf a).2 ∧
      nameLe a.team_name b.team_name)

instance : DecidableRel byAvgRankThenName :=
  fun a b => inferInstanceAs (Decidable (_ ∨ _))

/-- Modelled from the spec, not from the source: group by item name, then
    sort ascending by avg_rank with ties broken by item_name. -/
def refAggregate (rows : List VoteRow) : List ResultRow :=
  ((firstOccurrences (rows.map (fun v => v.team_name))).map
    (groupRow rows)).insertionSort byAvgRankThenName

/- ## Poll store, SQLAlchemy flavour (models.py Poll, routes.py) -/

namespace Sqlite

/-- A Poll row of the SQLAlchemy models; note this model has no
    is_archived column at all. -/
structure Poll where
  id : Nat
  week_number : Int
  season_year : Int
  is_active : Bool
deriving DecidableEq, Repr

/-- The poll table plus the AUTO_INCREMENT counter for fresh ids. -/
structure State where
  polls : List Poll
  nextId : Nat
deriving DecidableEq, Repr

/-- Translated from routes.cleanup_old_polls: deactivate every active
    poll that is not the poll of the current week. -/
def cleanup_old_polls (st : State) (now : Int) : State :=
  let cw := routesCurrentWeek now
  let cs := routesCurrentSeason now
  { st with polls := st.polls.map (fun p =>
      if p.is_active && !(p.season_year == cs && p.week_number == cw) then
        { p with is_active := false }
      else p) }

/-- Translated from routes.ensure_current_poll_exists: clean up old
    polls, skip week 0, return the first active poll of the current week
    when one exists, otherwise insert exactly one new active poll for the
    current week. -/
def ensure_current_poll_exists (st : State) (now : Int) : Option Poll × State :=
  let cw := routesCurrentWeek now
  let cs := routesCurrentSeason now
  let st1 := cleanup_old_polls st now
  if cw ≤ 0 then (none, st1)
  else
    match st1.polls.find? (fun p =>
        p.season_year == cs && p.week_number == cw && p.is_active) with
    | some p => (some p, st1)
    | none =>
        let newp : Poll := ⟨st1.nextId, cw, cs, true⟩
        (some newp, { polls := st1.polls ++ [newp], nextId := st1.nextId + 1 })

end Sqlite

/- ## Concrete fixtures used by counterexamples and witnesses -/

/-- A team name of i letters (kernel-computable, unlike string literals
    interleaved with arithmetic). -/
def tName (i : Nat) : String := String.mk (List.replicate i 'a')

/-- A poll row used by the fixtures. -/
def basePoll : PollRow := ⟨1, 2, 2025, 0, 100, true, false, 0⟩

/-- A database holding just one poll. -/
def pollDB : DB := { emptyDB with polls := [basePoll] }

/-- A full 25-item ballot (ranks 1..25 over 25 distinct teams). -/
def fullBallotA : List VoteItem :=
  (List.range 25).map (fun i => ⟨i + 1, tName (i + 1), "", "", ""⟩)

/-- The same teams, ranked in the reverse association. -/
def fullBallotB : List VoteItem :=
  (List.range 25).map (fun i => ⟨i + 1, tName (25 - i), "", "", ""⟩)

/-- A ballot putting Zebra first and Aardvark second. -/
def tieBallot1 : List VoteItem :=
  ⟨1, "Zebra", "", "", ""⟩ :: ⟨2, "Aardvark", "", "", ""⟩ ::
    (List.range 23).map (fun i => ⟨i + 3, tName (i + 3), "", "", ""⟩)

/-- A ballot putting Aardvark first and Zebra second. -/
def tieBallot2 : List VoteItem :=
  ⟨1, "Aardvark", "", "", ""⟩ :: ⟨2, "Zebra", "", "", ""⟩ ::
    (List.range 23).map (fun i => ⟨i + 3, tName (i + 3), "", "", ""⟩)

/-- Two ballots whose Zebra and Aardvark averages tie at 3/2. -/
def tieDB : DB := submit_ballot (submit_ballot pollDB 1 1 tieBallot1) 1 2 tieBallot2

/-- A form that leaves the rank 13 field empty and fills the rest. -/
def badTeamField : Nat → String := fun r => if r = 13 then "" else tName r

/-- An empty text field. -/
def noText : Nat → String := fun _ => ""

/-- A CSV lookup returning nothing (unrecognized team names). -/
def noLookup : String → String := fun _ => ""

/-- A single expired, unarchived, still active poll. -/
def lonePoll : PollRow := ⟨1, 1, 2025, 0, 10, true, false, 0⟩

/-- A database whose only poll is expired, so no current poll exists. -/
def expiredDB : DB := { emptyDB with polls := [lonePoll] }

/-- The live poll of the sweep fixtures. -/
def sweepCur : PollRow := ⟨2, 2, 2025, 10, 100, true, false, 1⟩

/-- A database with one expired poll and one live poll. -/
def sweepDB : DB := { emptyDB with polls := [lonePoll, sweepCur] }

/-- The previous poll of the movement fixtures: week 1, archived. -/
def mPrevPoll : PollRow := ⟨1, 1, 2025, 0, 50, false, true, 0⟩

/-- The current poll of the movement fixtures: week 2. -/
def mCurPoll : PollRow := ⟨2, 2, 2025, 50, 100, true, false, 1⟩

/-- The archive snapshot of the previous poll: Zebra held rank 3. -/
def mArchive : ArchiveRow := ⟨1, [⟨3, "Zebra", 2, 6⟩], 2, 2025, 1⟩

/-- A database where the archived week 1 poll is followed by a week 2
    poll holding one ballot that ranks Zebra first. -/
def moveDB : DB :=
  { polls := [mPrevPoll, mCurPoll],
    ballots := [⟨2, 1, [⟨1, "Zebra", "", "", ""⟩]⟩],
    votes := [⟨2, 1, "Zebra", "", "", 1, ""⟩],
    archives := [mArchive] }

/-- moveDB with an extra vote row added to the archived previous poll. -/
def moveDB2 : DB :=
  { moveDB with votes := moveDB.votes ++ [⟨1, 9, "Michigan", "", "", 1, ""⟩] }

/-- The enhanced row the movement fixtures produce for Zebra. -/
def zebraRow : EnhancedRow := ⟨1, "Zebra", 1, 1, some 3, some 2, "up"⟩

/-- A 30-item ballot over 30 distinct teams. -/
def manyBallot : List VoteItem :=
  (List.range 30).map (fun i => ⟨i + 1, tName (i + 1), "", "", ""⟩)

/-- A database whose poll 1 has votes for 30 distinct teams. -/
def manyDB : DB := submit_ballot pollDB 1 3 manyBallot

/-- The empty results view, used only as a getD default. -/
def emptyView : ResultsView := ⟨[], [], 0⟩

/-- A state holding an inactive poll for week 1 of 2025. -/
def staleState : Sqlite.State := ⟨[⟨1, 1, 2025, false⟩], 2⟩

/-- A state holding an active poll for week 1 of 2025. -/
def freshState : Sqlite.State := ⟨[⟨1, 1, 2025, true⟩], 2⟩

/- ## Theorems -/

/-- C1 (code bug evaluation): the creator_ballots table of
    CreatorBallot.create_tables has no unique key on (poll_id, user_id),
    so the INSERT ... ON DUPLICATE KEY UPDATE of submit_ballot always
    inserts: after two sequential submissions by the same voter the poll
    holds two ballot rows, not one, although the creator_votes rows do
    reflect only the second submission. -/
theorem claim1_resubmission_adds_ballot_row :
    get_poll_ballot_count
        (submit_ballot (submit_ballot pollDB 1 7 fullBallotA) 1 7 fullBallotB) 1 = 2 ∧
    ((submit_ballot (submit_ballot pollDB 1 7 fullBallotA) 1 7 fullBallotB).votes.filter
        (fun v => v.poll_id == 1 && v.user_id == 7)).map
        (fun v => (v.team_name, v.rank_position)) =
      fullBallotB.map (fun it => (it.team_name, it.rank)) := by
  exact ⟨rfl, rfl⟩

/-- C10: both week resolvers return an integer in 0..17, return 0 exactly
    when the time is before their season-start anchor, and return at least
    1 once the season has started, capped at 17 arbitrarily far past the
    anchor. -/
theorem claim10_week_resolver_bounds (now : Int) :
    (0 ≤ routesCurrentWeek now ∧ routesCurrentWeek now ≤ 17 ∧
      (routesCurrentWeek now = 0 ↔ now < routesSeasonStart) ∧
      (routesSeasonStart ≤ now → 1 ≤ routesCurrentWeek now)) ∧
    (0 ≤ mysqlCurrentWeek now ∧ mysqlCurrentWeek now ≤ 17 ∧
      (mysqlCurrentWeek now = 0 ↔ now < mysqlSeasonStart) ∧
      (mysqlSeasonStart ≤ now → 1 ≤ mysqlCurrentWeek now)) := by
  constructor
  · unfold routesCurrentWeek
    by_cases h : now < routesSeasonStart
    · simp [h]
    · have hlo : (1 : Int) ≤ min (max (routesBumpedWeeks now + 1) 1) 17 :=
        le_min (le_max_right _ _) (by norm_num)
      have hhi : min (max (routesBumpedWeeks now + 1) 1) 17 ≤ 17 :=
        min_le_right _ _
      simp only [h, if_false]
      exact ⟨le_trans (by norm_num) hlo, hhi,
        ⟨fun h0 => absurd (h0 ▸ hlo) (by norm_num), fun hlt => hlt.elim⟩,
        fun _ => hlo⟩
  · unfold mysqlCurrentWeek
    by_cases h : now < mysqlSeasonStart
    · simp [h]
    · have h0 : 0 ≤ daysBetween mysqlSeasonStart now :=
        Int.fdiv_nonneg (by omega) (by norm_num [minutesPerDay])
      have h1 : 0 ≤ (daysBetween mysqlSeasonStart now).fdiv 7 :=
        Int.fdiv_nonneg h0 (by norm_num)
      have hlo : (1 : Int) ≤ min ((daysBetween mysqlSeasonStart now).fdiv 7 + 1) 17 :=
        le_min (by omega) (by norm_num)
      have hhi : min ((daysBetween mysqlSeasonStart now).fdiv 7 + 1) 17 ≤ 17 :=
        min_le_right _ _
      simp only [h, if_false]
      exact ⟨le_trans (by norm_num) hlo, hhi,
        ⟨fun h0 => absurd (h0 ▸ hlo) (by norm_num), fun hlt => hlt.elim⟩,
        fun _ => hlo⟩

/-- The ranks of the collected ballot are the ranks whose form field is
    nonempty, in order. -/
theorem collectBallot_map_rank (tf rf : Nat → String) (co io2 : String → String) :
    (collectBallot tf rf co io2).map (fun it => it.rank) =
      ((List.range 25).map (fun i => i + 1)).filter
        (fun r => !(decide (tf r = ""))) := by
  unfold collectBallot
  generalize (List.range 25).map (fun i => i + 1) = l
  induction l with
  | nil => rfl
  | cons r t ih =>
      by_cases h : tf r = "" <;>
        simp [List.filterMap_cons, List.filter_cons, h, ih]

/-- The collected ballot never exceeds 25 entries. -/
theorem collectBallot_length_le (tf rf : Nat → String) (co io2 : String → String) :
    (collectBallot tf rf co io2).length ≤ 25 :=
  le_trans (List.length_filterMap_le _ _) (by simp)

/-- A collected ballot of full length carries exactly the ranks 1..25. -/
theorem collectBallot_full_ranks (tf rf : Nat → String) (co io2 : String → String)
    (h : (collectBallot tf rf co io2).length = 25) :
    (collectBallot tf rf co io2).map (fun it => it.rank) =
      (List.range 25).map (fun i => i + 1) := by
  have hm := collectBallot_map_rank tf rf co io2
  have hlen : (((List.range 25).map (fun i => i + 1)).filter
      (fun r => !(decide (tf r = "")))).length =
      ((List.range 25).map (fun i => i + 1)).length := by
    rw [← hm]
    simp [h]
  rw [hm, (List.filter_sublist _).eq_of_length hlen]

/-- C2: a submission whose collected items are not 25 ranks forming a
    permutation of 1..25 is rejected by the vote handler with the
    invalid-ballot error and the database is returned unchanged (nothing
    is persisted, any prior ballot is untouched). -/
theorem claim2_invalid_ballot_rejected (db : DB) (pid uid : Nat)
    (tf rf : Nat → String) (co io2 : String → String) (p : PollRow)
    (hpoll : get_poll_by_id db pid = some p)
    (hbad : ¬((collectBallot tf rf co io2).length = 25 ∧
      ((collectBallot tf rf co io2).map (fun it => it.rank)).Perm
        ((List.range 25).map (fun i => i + 1)))) :
    vote_post db pid uid tf rf co io2 = (VoteOutcome.invalidBallot, db) := by
  have hlt : (collectBallot tf rf co io2).length < 25 := by
    rcases Nat.lt_or_ge ((collectBallot tf rf co io2).length) 25 with h | h
    · exact h
    · have h25 : (collectBallot tf rf co io2).length = 25 :=
        le_antisymm (collectBallot_length_le tf rf co io2) h
      exact absurd ⟨h25, by rw [collectBallot_full_ranks tf rf co io2 h25]⟩ hbad
  unfold vote_post
  rw [hpoll]
  simp [hlt]

/-- Witness for C2: a form with the rank 13 field left empty is rejected
    and the database is unchanged. -/
theorem claim2_invalid_ballot_rejected_witness :
    vote_post pollDB 1 7 badTeamField noText noLookup noLookup =
      (VoteOutcome.invalidBallot, pollDB) :=
  claim2_invalid_ballot_rejected pollDB 1 7 badTeamField noText noLookup noLookup
    basePoll (by rfl) (by decide)

/-- C3 (counterexample): with Zebra and Aardvark tied at average rank
    3/2 and Zebra appearing first in the stored vote rows, the
    aggregation keeps Zebra before Aardvark, so its output differs from
    the reference computation that breaks average-rank ties by item
    name.  Ties are kept in first-appearance order instead. -/
theorem claim3_ties_not_broken_by_name :
    get_poll_results tieDB 1 ≠ refAggregate (pollVotes tieDB 1) ∧
    (get_poll_results tieDB 1).map (fun r => r.team_name) ≠
      (refAggregate (pollVotes tieDB 1)).map (fun r => r.team_name) := by
  exact ⟨by decide, by decide⟩

/-- C4: every row of the movement-enhanced results is classified from
    the previous rankings exactly as the spec states: a found previous
    rank p yields movement p - rank with type up/down/same by sign; an
    absent item yields movement null and type new; and when no previous
    poll exists at all every row has type new. -/
theorem claim4_movement_classification (db : DB) (pid : Nat) (cp : PollRow)
    (hc : get_poll_by_id db pid = some cp) (e : EnhancedRow)
    (he : e ∈ get_poll_results_with_movement db pid) :
    (∀ p, (previousRankings db (get_previous_week_poll db cp.week_number
        cp.season_year)).lookup e.team_name = some p →
      e.previous_rank = some p ∧
      e.movement = some ((p : Int) - (e.rank : Int)) ∧
      e.movement_type = (if 0 < (p : Int) - (e.rank : Int) then "up"
        else if (p : Int) - (e.rank : Int) < 0 then "down" else "same")) ∧
    ((previousRankings db (get_previous_week_poll db cp.week_number
        cp.season_year)).lookup e.team_name = none →
      e.previous_rank = none ∧ e.movement = none ∧ e.movement_type = "new") ∧
    (get_previous_week_poll db cp.week_number cp.season_year = none →
      e.movement_type = "new") := by
  unfold get_poll_results_with_movement at he
  rw [hc] at he
  obtain ⟨q, _, rfl⟩ := List.mem_map.mp he
  cases hl : (previousRankings db (get_previous_week_poll db cp.week_number
      cp.season_year)).lookup q.2.team_name with
  | none =>
      refine ⟨?_, ?_, ?_⟩
      · intro p hp
        rw [show (enhanceRow (previousRankings db (get_previous_week_poll db
            cp.week_number cp.season_year)) q.1 q.2).team_name = q.2.team_name
          from by unfold enhanceRow; rw [hl]] at hp
        rw [hl] at hp
        exact absurd hp (by simp)
      · intro _
        unfold enhanceRow
        rw [hl]
        exact ⟨rfl, rfl, rfl⟩
      · intro _
        unfold enhanceRow
        rw [hl]
  | some p0 =>
      have hteam : (enhanceRow (previousRankings db (get_previous_week_poll db
          cp.week_number cp.season_year)) q.1 q.2).team_name = q.2.team_name := by
        unfold enhanceRow
        rw [hl]
      refine ⟨?_, ?_, ?_⟩
      · intro p hp
        rw [hteam, hl] at hp
        obtain rfl : p0 = p := by injection hp
        unfold enhanceRow
        rw [hl]
        refine ⟨rfl, rfl, rfl⟩
      · intro hp
        rw [hteam, hl] at hp
        exact absurd hp (by simp)
      · intro hnone
        rw [hnone] at hl
        exact absurd hl (by simp [previousRankings])

/-- Witness for C4: in the movement fixtures Zebra moves from archived
    rank 3 to rank 1, classified up with movement 2. -/
theorem claim4_movement_classification_witness :
    zebraRow.previous_rank = some 3 ∧ zebraRow.movement = some 2 ∧
      zebraRow.movement_type = "up" := by
  have h2 := (claim4_movement_classification moveDB 2 mCurPoll rfl zebraRow
    (by decide)).1 3 (by decide)
  refine ⟨h2.1, ?_, h2.2.2.trans (by decide)⟩
  rw [h2.2.1]
  decide

/-- The previous-poll resolution depends only on the poll table. -/
theorem get_previous_week_poll_congr (db db2 : DB) (hpolls : db2.polls = db.polls)
    (w s : Int) :
    get_previous_week_poll db2 w s = get_previous_week_poll db w s := by
  unfold get_previous_week_poll
  rw [hpolls]

/-- C5: when the previous poll has an archive row, the previous rankings
    used by the movement computation are exactly the archived snapshot,
    and the whole movement output is unchanged by any edit of the stored
    vote rows that keeps the current poll rows intact (in particular by
    edits to the previous poll vote rows). -/
theorem claim5_archived_baseline_frozen (db db2 : DB) (pid : Nat) (cp : PollRow)
    (hc : get_poll_by_id db pid = some cp) (prev : PollRow)
    (hprev : get_previous_week_poll db cp.week_number cp.season_year = some prev)
    (ar : ArchiveRow) (har : archiveFor db prev.id = some ar)
    (hpolls : db2.polls = db.polls) (harch : db2.archives = db.archives)
    (hcur : pollVotes db2 pid = pollVotes db pid) :
    previousRankings db (some prev) =
      ar.final_rankings.map (fun r => (r.team_name, r.rank)) ∧
    get_poll_results_with_movement db2 pid = get_poll_results_with_movement db pid := by
  have har2 : archiveFor db2 prev.id = some ar := by
    unfold archiveFor
    rw [harch]
    exact har
  have hpr : previousRankings db2 (some prev) = previousRankings db (some prev) := by
    show rankingsOfPoll db2 prev = rankingsOfPoll db prev
    unfold rankingsOfPoll
    rw [har, har2]
  have hc2 : get_poll_by_id db2 pid = some cp := by
    unfold get_poll_by_id
    rw [hpolls]
    exact hc
  have hres : get_poll_results db2 pid = get_poll_results db pid := by
    unfold get_poll_results
    rw [hcur]
  constructor
  · show rankingsOfPoll db prev = _
    unfold rankingsOfPoll
    rw [har]
  · unfold get_poll_results_with_movement
    simp only [hc, hc2, hres, get_previous_week_poll_congr db db2 hpolls, hprev, hpr]

/-- Witness for C5: adding a vote row to the archived previous poll of
    the movement fixtures leaves the movement output unchanged. -/
theorem claim5_archived_baseline_frozen_witness :
    get_poll_results_with_movement moveDB2 2 =
      get_poll_results_with_movement moveDB 2 ∧
    previousRankings moveDB (some mPrevPoll) = [("Zebra", 3)] := by
  have h := claim5_archived_baseline_frozen moveDB moveDB2 2 mCurPoll rfl
    mPrevPoll (by decide) mArchive (by decide) rfl rfl (by decide)
  exact ⟨h.2, h.1.trans (by decide)⟩

/-- Flagging a poll archived never changes its id. -/
theorem flagArchived_id (pid : Nat) (p : PollRow) :
    (flagArchived pid p).id = p.id := by
  unfold flagArchived
  split <;> rfl

/-- Flagging is idempotent on one row. -/
theorem flagArchived_idem (pid : Nat) (p : PollRow) :
    flagArchived pid (flagArchived pid p) = flagArchived pid p := by
  unfold flagArchived
  by_cases h : p.id == pid <;> simp [h]

/-- Looking a poll up by id commutes with flagging that id. -/
theorem find?_map_flagArchived (l : List PollRow) (pid : Nat) (poll : PollRow)
    (h : l.find? (fun p => p.id == pid) = some poll) :
    (l.map (flagArchived pid)).find? (fun p => p.id == pid) =
      some (flagArchived pid poll) := by
  induction l with
  | nil => simp at h
  | cons a t ih =>
      cases ha : a.id == pid with
      | true =>
          rw [List.find?_cons] at h
          simp only [ha] at h
          injection h with h
          subst h
          rw [List.map_cons, List.find?_cons]
          simp only [flagArchived_id, ha]
      | false =>
          rw [List.find?_cons] at h
          simp only [ha] at h
          rw [List.map_cons, List.find?_cons]
          simp only [flagArchived_id, ha]
          exact ih h

/-- The upserted archive table always holds a row for the upserted poll. -/
theorem upsertArchive_any (A : List ArchiveRow) (row : ArchiveRow) :
    (upsertArchive A row).any (fun a => a.poll_id == row.poll_id) = true := by
  unfold upsertArchive
  split
  · next h =>
      obtain ⟨x, hx, hpx⟩ := List.any_eq_true.mp h
      refine List.any_eq_true.mpr ⟨_, List.mem_map_of_mem _ hx, ?_⟩
      simp [hpx]
  · exact List.any_eq_true.mpr ⟨row, by simp, by simp⟩

/-- Every row for the upserted poll carries the upserted content. -/
theorem upsertArchive_content (A : List ArchiveRow) (row : ArchiveRow)
    (a : ArchiveRow) (ha : a ∈ upsertArchive A row)
    (hid : a.poll_id = row.poll_id) :
    a.final_rankings = row.final_rankings ∧ a.total_ballots = row.total_ballots := by
  unfold upsertArchive at ha
  split at ha
  · obtain ⟨b, _, hb⟩ := List.mem_map.mp ha
    by_cases hc : (b.poll_id == row.poll_id) = true
    · rw [if_pos hc] at hb
      rw [← hb]
      exact ⟨rfl, rfl⟩
    · rw [if_neg hc] at hb
      subst hb
      exact absurd (by simp [hid]) hc
  · next hany =>
      rcases List.mem_append.mp ha with hA | hr
      · have hx : A.any (fun x => x.poll_id == row.poll_id) = true :=
          List.any_eq_true.mpr ⟨a, hA, by simp [hid]⟩
        exact absurd hx (by simpa using hany)
      · obtain rfl : a = row := by simpa using hr
        exact ⟨rfl, rfl⟩

/-- Updating every row of the upserted poll with the content it already
    carries is a no-op. -/
theorem map_update_self (A : List ArchiveRow) (row : ArchiveRow)
    (h : ∀ a ∈ A, a.poll_id = row.poll_id →
      a.final_rankings = row.final_rankings ∧ a.total_ballots = row.total_ballots) :
    A.map (fun a =>
      if a.poll_id == row.poll_id then
        { a with final_rankings := row.final_rankings,
                 total_ballots := row.total_ballots }
      else a) = A := by
  refine (List.map_congr_left ?_).trans (List.map_id A)
  intro a haA
  by_cases hc : (a.poll_id == row.poll_id) = true
  · obtain ⟨h1, h2⟩ := h a haA (by simpa using hc)
    rw [if_pos hc, ← h1, ← h2]
    rfl
  · rw [if_neg hc]
    rfl

/-- Upserting the same archive row twice equals upserting it once. -/
theorem upsertArchive_idem (A : List ArchiveRow) (row : ArchiveRow) :
    upsertArchive (upsertArchive A row) row = upsertArchive A row := by
  have h1 := upsertArchive_any A row
  have h2 := upsertArchive_content A row
  generalize hB : upsertArchive A row = B at h1 h2 ⊢
  unfold upsertArchive
  rw [if_pos h1]
  exact map_update_self B row h2

/-- C6: archival is idempotent.  If archiving a poll succeeds then
    archiving it again with no intervening changes succeeds and leaves the
    database exactly as after the first call; the archive table holds
    exactly one row for the poll (given the unique key held before), and
    every row of the poll is flagged archived and inactive. -/
theorem claim6_archive_idempotent (db : DB) (pid : Nat) (db1 : DB)
    (h : archive_poll db pid = some db1)
    (hone : (db.archives.filter (fun a => a.poll_id == pid)).length ≤ 1) :
    archive_poll db1 pid = some db1 ∧
    (db1.archives.filter (fun a => a.poll_id == pid)).length = 1 ∧
    (∀ p ∈ db1.polls, p.id = pid → p.is_archived = true ∧ p.is_active = false) := by
  unfold archive_poll at h
  cases hg : get_poll_by_id db pid with
  | none =>
      rw [hg] at h
      exact absurd h (by simp)
  | some poll =>
      rw [hg] at h
      injection h with h
      subst h
      have hpid : poll.id = pid := by
        have := List.find?_some hg
        exact beq_iff_eq.mp this
      set row : ArchiveRow :=
        ⟨pid, finalRankingsOf db pid, get_poll_ballot_count db pid,
         poll.season_year, poll.week_number⟩ with hrow
      refine ⟨?_, ?_, ?_⟩
      · -- second call is a no-op
        unfold archive_poll
        rw [show get_poll_by_id
            { db with archives := upsertArchive db.archives row,
                      polls := db.polls.map (flagArchived pid) } pid =
            some (flagArchived pid poll) from find?_map_flagArchived _ _ _ hg]
        have hfr : finalRankingsOf
            { db with archives := upsertArchive db.archives row,
                      polls := db.polls.map (flagArchived pid) } pid =
            finalRankingsOf db pid := rfl
        have hbc : get_poll_ballot_count
            { db with archives := upsertArchive db.archives row,
                      polls := db.polls.map (flagArchived pid) } pid =
            get_poll_ballot_count db pid := rfl
        have hsy : (flagArchived pid poll).season_year = poll.season_year := by
          unfold flagArchived
          split <;> rfl
        have hwk : (flagArchived pid poll).week_number = poll.week_number := by
          unfold flagArchived
          split <;> rfl
        simp only [hfr, hbc, hsy, hwk]
        have hmm : (db.polls.map (flagArchived pid)).map (flagArchived pid) =
            db.polls.map (flagArchived pid) := by
          rw [List.map_map]
          exact List.map_congr_left (fun p _ => flagArchived_idem pid p)
        rw [upsertArchive_idem, hmm]
      · -- exactly one archive row for the poll
        show ((upsertArchive db.archives row).filter
          (fun a => a.poll_id == pid)).length = 1
        unfold upsertArchive
        split
        · next hany =>
            have hcount : ((db.archives.map (fun a =>
                if a.poll_id == row.poll_id then
                  { a with final_rankings := row.final_rankings,
                           total_ballots := row.total_ballots }
                else a)).filter (fun a => a.poll_id == pid)).length =
                ((db.archives.filter (fun a => a.poll_id == pid)).length) := by
              rw [← List.countP_eq_length_filter, ← List.countP_eq_length_filter,
                List.countP_map]
              refine List.countP_congr ?_
              intro a _
              by_cases hc : a.poll_id == row.poll_id <;>
                simp [Function.comp, hc]
            rw [hcount]
            obtain ⟨x, hx, hpx⟩ := List.any_eq_true.mp hany
            have hge : 1 ≤ (db.archives.filter (fun a => a.poll_id == pid)).length := by
              have : x ∈ db.archives.filter (fun a => a.poll_id == pid) :=
                List.mem_filter.mpr ⟨hx, hpx⟩
              exact List.length_pos.mpr (fun hnil => by simp [hnil] at this)
            omega
        · next hany =>
            rw [List.filter_append]
            have hnil : db.archives.filter (fun a => a.poll_id == pid) = [] := by
              rw [List.filter_eq_nil_iff]
              intro a haA hcontra
              exact hany (List.any_eq_true.mpr ⟨a, haA, hcontra⟩)
            rw [hnil]
            simp [hrow]
      · -- flags set on every row of the poll
        intro p hp hpidp
        obtain ⟨q, _, hq⟩ := List.mem_map.mp hp
        by_cases hc : q.id == pid
        · rw [show flagArchived pid q =
              { q with is_archived := true, is_active := false } from by
            unfold flagArchived; rw [if_pos hc]] at hq
          rw [← hq]
          exact ⟨rfl, rfl⟩
        · rw [show flagArchived pid q = q from by
            unfold flagArchived; rw [if_neg hc]] at hq
          subst hq
          exact absurd (beq_iff_eq.mpr hpidp) hc

/-- Witness for C6: archiving poll 2 of the movement fixtures twice
    changes nothing after the first call and leaves one archive row. -/
theorem claim6_archive_idempotent_witness :
    archive_poll ((archive_poll moveDB 2).getD emptyDB) 2 =
      some ((archive_poll moveDB 2).getD emptyDB) ∧
    (((archive_poll moveDB 2).getD emptyDB).archives.filter
      (fun a => a.poll_id == 2)).length = 1 := by
  have h := claim6_archive_idempotent moveDB 2 ((archive_poll moveDB 2).getD emptyDB)
    (by decide) (by decide)
  exact ⟨h.1, h.2.1⟩

/-- C7 (counterexample): when no poll is inside its window, the sweep
    skips the whole block and archives nothing, although an expired
    unarchived poll exists; the claim as stated says the archived set is
    exactly the expired unarchived polls minus the current one, which is
    nonempty here. -/
theorem claim7_sweep_skips_without_current :
    archive_polls expiredDB 20 = (expiredDB, []) ∧
    (expiredDB.polls.filter (fun p =>
      decide (p.end_date < 20) && !p.is_archived)).map (fun p => p.id) = [1] := by
  exact ⟨rfl, rfl⟩

/-- The accumulator-passing selection of ORDER BY created_at DESC LIMIT 1
    only ever returns an element of its input. -/
theorem pickLatest_foldl_mem (l : List PollRow) :
    ∀ acc p, l.foldl (fun acc p => match acc with
      | none => some p
      | some q => if q.created_at < p.created_at then some p else acc) acc =
        some p →
      acc = some p ∨ p ∈ l := by
  induction l with
  | nil => exact fun acc p h => Or.inl h
  | cons a t ih =>
      intro acc p h
      rcases ih _ p h with hstep | hmem
      · cases acc with
        | none =>
            simp only [] at hstep
            injection hstep with hstep
            exact Or.inr (hstep ▸ List.mem_cons_self a t)
        | some q =>
            simp only [] at hstep
            by_cases hlt : q.created_at < a.created_at
            · rw [if_pos hlt] at hstep
              injection hstep with hstep
              exact Or.inr (hstep ▸ List.mem_cons_self a t)
            · rw [if_neg hlt] at hstep
              exact Or.inl hstep
      · exact Or.inr (List.mem_cons_of_mem a hmem)

/-- The current poll, when one exists, is an active poll of the table
    whose window contains now. -/
theorem get_current_poll_mem (db : DB) (now : Int) (cp : PollRow)
    (h : get_current_poll db now = some cp) :
    cp ∈ db.polls ∧ cp.is_active = true ∧ cp.start_date ≤ now ∧
      now ≤ cp.end_date := by
  unfold get_current_poll pickLatest at h
  rcases pickLatest_foldl_mem _ none cp h with hnone | hmem
  · exact absurd hnone (by simp)
  · have hf := List.mem_filter.mp hmem
    refine ⟨hf.1, ?_, ?_, ?_⟩ <;>
      [skip; skip; skip] <;>
      · have hb := hf.2
        simp only [Bool.and_eq_true, decide_eq_true_eq] at hb
        tauto

/-- A sweep step for one poll id preserves the rows of every other poll. -/
theorem sweepStep_poll_preserved (db : DB) (pid x : Nat) (hne : pid ≠ x)
    (p : PollRow) (hp : p ∈ (sweepStep db pid).polls) (hpx : p.id = x) :
    p ∈ db.polls := by
  unfold sweepStep at hp
  cases hg : archive_poll db pid with
  | none =>
      rw [hg] at hp
      exact hp
  | some db1 =>
      rw [hg] at hp
      unfold archive_poll at hg
      cases hgp : get_poll_by_id db pid with
      | none => rw [hgp] at hg; exact absurd hg (by simp)
      | some poll =>
          rw [hgp] at hg
          injection hg with hg
          subst hg
          obtain ⟨q, hq, hqe⟩ := List.mem_map.mp hp
          by_cases hc : (q.id == pid) = true
          · rw [show flagArchived pid q =
                { q with is_archived := true, is_active := false } from by
              unfold flagArchived; rw [if_pos hc]] at hqe
            have hqid : q.id = pid := by simpa using hc
            have hpidp : p.id = pid := by rw [← hqe]; exact hqid
            exact absurd (hpidp ▸ hpx) hne
          · rw [show flagArchived pid q = q from by
              unfold flagArchived; rw [if_neg hc]] at hqe
            exact hqe ▸ hq

/-- Updating the rows of one poll in place does not change the lookup of
    any other poll. -/
theorem find?_map_update_ne (t : List ArchiveRow) (row : ArchiveRow) (x : Nat)
    (hne : row.poll_id ≠ x) :
    (t.map (fun a =>
      if a.poll_id == row.poll_id then
        { a with final_rankings := row.final_rankings,
                 total_ballots := row.total_ballots }
      else a)).find? (fun a => a.poll_id == x) =
      t.find? (fun a => a.poll_id == x) := by
  induction t with
  | nil => rfl
  | cons a t ih =>
      rw [List.map_cons, List.find?_cons, List.find?_cons]
      by_cases hc : (a.poll_id == row.poll_id) = true
      · have heq : a.poll_id = row.poll_id := by simpa using hc
        have hax : (a.poll_id == x) = false := by simp [heq, hne]
        rw [if_pos hc]
        simp only [hax]
        exact ih
      · rw [if_neg hc]
        cases hax : a.poll_id == x with
        | true => rfl
        | false => simp only [hax]; exact ih

/-- Appending a row for one poll does not change the lookup of any other
    poll. -/
theorem find?_append_single_ne (t : List ArchiveRow) (row : ArchiveRow) (x : Nat)
    (hne : row.poll_id ≠ x) :
    (t ++ [row]).find? (fun a => a.poll_id == x) =
      t.find? (fun a => a.poll_id == x) := by
  induction t with
  | nil =>
      rw [List.nil_append, List.find?_cons]
      have : (row.poll_id == x) = false := by simp [hne]
      simp [this]
  | cons a t ih =>
      rw [List.cons_append, List.find?_cons, List.find?_cons]
      cases hax : a.poll_id == x with
      | true => rfl
      | false => simp only [hax]; exact ih

/-- Upserting an archive row for one poll does not change the archive
    lookup of any other poll. -/
theorem archiveFor_upsert_ne (A : List ArchiveRow) (row : ArchiveRow) (x : Nat)
    (hne : row.poll_id ≠ x) :
    (upsertArchive A row).find? (fun a => a.poll_id == x) =
      A.find? (fun a => a.poll_id == x) := by
  unfold upsertArchive
  split
  · exact find?_map_update_ne A row x hne
  · exact find?_append_single_ne A row x hne

/-- A sweep step for one poll id preserves the archive row of every
    other poll. -/
theorem sweepStep_archiveFor_preserved (db : DB) (pid x : Nat) (hne : pid ≠ x) :
    archiveFor (sweepStep db pid) x = archiveFor db x := by
  unfold sweepStep
  cases hg : archive_poll db pid with
  | none => rfl
  | some db1 =>
      unfold archive_poll at hg
      cases hgp : get_poll_by_id db pid with
      | none => rw [hgp] at hg; exact absurd hg (by simp)
      | some poll =>
          rw [hgp] at hg
          injection hg with hg
          subst hg
          exact archiveFor_upsert_ne db.archives _ x hne

/-- Folding sweep steps over ids different from x preserves the rows of
    poll x. -/
theorem sweepFold_poll_preserved : ∀ (ids : List Nat) (db : DB) (x : Nat),
    (∀ i ∈ ids, i ≠ x) → ∀ p : PollRow,
      p ∈ (ids.foldl sweepStep db).polls → p.id = x → p ∈ db.polls
  | [], _, _, _, _, hp, _ => hp
  | i :: t, db, x, hx, p, hp, hpx => by
      have hi : i ≠ x := hx i (List.mem_cons_self i t)
      have ht : ∀ j ∈ t, j ≠ x := fun j hj => hx j (List.mem_cons_of_mem i hj)
      exact sweepStep_poll_preserved db i x hi p
        (sweepFold_poll_preserved t (sweepStep db i) x ht p hp hpx) hpx

/-- Folding sweep steps over ids different from x preserves the archive
    lookup of poll x. -/
theorem sweepFold_archiveFor_preserved : ∀ (ids : List Nat) (db : DB) (x : Nat),
    (∀ i ∈ ids, i ≠ x) →
      archiveFor (ids.foldl sweepStep db) x = archiveFor db x
  | [], _, _, _ => rfl
  | i :: t, db, x, hx => by
      have hi : i ≠ x := hx i (List.mem_cons_self i t)
      have ht : ∀ j ∈ t, j ≠ x := fun j hj => hx j (List.mem_cons_of_mem i hj)
      calc archiveFor ((i :: t).foldl sweepStep db) x
          = archiveFor (t.foldl sweepStep (sweepStep db i)) x := rfl
        _ = archiveFor (sweepStep db i) x :=
            sweepFold_archiveFor_preserved t (sweepStep db i) x ht
        _ = archiveFor db x := sweepStep_archiveFor_preserved db i x hi

/-- C7 (amended): when no current poll exists the sweep archives
    nothing; when one exists it archives exactly the expired unarchived
    polls other than the current poll, whose own end date has not passed,
    whose rows are untouched by the sweep, and for which the sweep
    creates no archive row. -/
theorem claim7_sweep_amended (db : DB) (now : Int) :
    (get_current_poll db now = none → archive_polls db now = (db, [])) ∧
    (∀ cp, get_current_poll db now = some cp →
      (archive_polls db now).2 = completedPollIds db now cp.id ∧
      now ≤ cp.end_date ∧
      cp.id ∉ completedPollIds db now cp.id ∧
      (∀ p ∈ (archive_polls db now).1.polls, p.id = cp.id → p ∈ db.polls) ∧
      archiveFor (archive_polls db now).1 cp.id = archiveFor db cp.id) := by
  constructor
  · intro h
    unfold archive_polls
    rw [h]
  · intro cp h
    have hmem := get_current_poll_mem db now cp h
    have hall : ∀ i ∈ completedPollIds db now cp.id, i ≠ cp.id := by
      intro i hi
      unfold completedPollIds at hi
      obtain ⟨p, hpf, hpid⟩ := List.mem_map.mp hi
      have hb := (List.mem_filter.mp hpf).2
      simp only [Bool.and_eq_true, bne_iff_ne] at hb
      exact hpid ▸ hb.2
    have hnotin : cp.id ∉ completedPollIds db now cp.id := fun hin =>
      (hall cp.id hin) rfl
    unfold archive_polls
    rw [h]
    exact ⟨rfl, hmem.2.2.2, hnotin,
      fun p hp hpx => sweepFold_poll_preserved _ db cp.id hall p hp hpx,
      sweepFold_archiveFor_preserved _ db cp.id hall⟩

/-- Witness for C7: in the sweep fixtures the sweep archives exactly the
    expired poll 1, and leaves the live poll 2 without an archive row. -/
theorem claim7_sweep_amended_witness :
    (archive_polls sweepDB 50).2 = [1] ∧
    archiveFor (archive_polls sweepDB 50).1 2 = none := by
  have h := (claim7_sweep_amended sweepDB 50).2 sweepCur (by decide)
  refine ⟨h.1.trans (by decide), ?_⟩
  rw [show archiveFor (archive_polls sweepDB 50).1 2 =
    archiveFor sweepDB 2 from h.2.2.2.2]
  rfl

/-- The rank field of an enhanced row is its 1-based position. -/
theorem enhanceRow_rank (prevRank : List (String × Nat)) (i : Nat) (r : ResultRow) :
    (enhanceRow prevRank i r).rank = i + 1 := by
  unfold enhanceRow
  cases prevRank.lookup r.team_name <;> rfl

/-- The movement-enhanced list is empty (missing poll) or the
    enumeration of the aggregated results against the previous
    rankings. -/
theorem with_movement_eq (db : DB) (pid : Nat) :
    get_poll_results_with_movement db pid = [] ∨
    ∃ cp, get_poll_by_id db pid = some cp ∧
      get_poll_results_with_movement db pid =
        (get_poll_results db pid).enum.map (fun p =>
          enhanceRow (previousRankings db (get_previous_week_poll db
            cp.week_number cp.season_year)) p.1 p.2) := by
  unfold get_poll_results_with_movement
  cases hg : get_poll_by_id db pid with
  | none => exact Or.inl rfl
  | some cp => exact Or.inr ⟨cp, rfl, rfl⟩

/-- Every position of the movement-enhanced list carries rank
    position + 1. -/
theorem with_movement_rank (db : DB) (pid : Nat) (i : Nat)
    (hi : i < (get_poll_results_with_movement db pid).length) :
    ((get_poll_results_with_movement db pid).get ⟨i, hi⟩).rank = i + 1 := by
  rcases with_movement_eq db pid with h | ⟨cp, _, h⟩
  · exact absurd hi (by simp [h])
  · rw [List.get_of_eq h ⟨i, hi⟩, List.get_eq_getElem, List.getElem_map,
      List.getElem_enum]
    exact enhanceRow_rank _ i _

/-- C8: the results view splits the movement-enhanced rows into the
    first 25 as the ranked list (whose entries carry rank = position)
    and the remainder as others receiving votes holding only team name
    and vote count; with more than 25 voted items the ranked list has
    exactly 25 entries and others the rest. -/
theorem claim8_results_split (db : DB) (pid : Nat) (v : ResultsView)
    (hv : results_view db pid = some v) :
    v.rankings = (get_poll_results_with_movement db pid).take 25 ∧
    v.others = ((get_poll_results_with_movement db pid).drop 25).map
      (fun r => ⟨r.team_name, r.vote_count⟩) ∧
    (25 ≤ (get_poll_results_with_movement db pid).length →
      v.rankings.length = 25) ∧
    v.others.length = (get_poll_results_with_movement db pid).length - 25 ∧
    (∀ i, (hi : i < v.rankings.length) →
      (v.rankings.get ⟨i, hi⟩).rank = i + 1) ∧
    v.total_ballots = get_poll_ballot_count db pid := by
  unfold results_view at hv
  cases hg : get_poll_by_id db pid with
  | none =>
      rw [hg] at hv
      exact absurd hv (by simp)
  | some cp =>
      rw [hg] at hv
      injection hv with hv
      subst hv
      refine ⟨rfl, rfl, ?_, ?_, ?_, rfl⟩
      · intro h
        simp [List.length_take]
        omega
      · simp [List.length_drop]
      · intro i hi
        have hi2 : i < (get_poll_results_with_movement db pid).length := by
          have := hi
          simp [List.length_take] at this
          omega
        have htake : ((get_poll_results_with_movement db pid).take 25).get ⟨i, hi⟩ =
            (get_poll_results_with_movement db pid).get ⟨i, hi2⟩ := by
          rw [List.get_eq_getElem, List.get_eq_getElem, List.getElem_take]
        rw [htake, with_movement_rank]

/-- Witness for C8: with 30 distinct voted teams the ranked list holds
    exactly 25 entries and others receiving votes exactly 5. -/
theorem claim8_results_split_witness :
    ((results_view manyDB 1).getD emptyView).rankings.length = 25 ∧
    ((results_view manyDB 1).getD emptyView).others.length = 5 := by
  have h := claim8_results_split manyDB 1 ((results_view manyDB 1).getD emptyView)
    (by decide)
  refine ⟨h.2.2.1 (by decide), ?_⟩
  rw [h.2.2.2.1]
  decide

/-- Every active poll that survives cleanup_old_polls is the poll of the
    current week. -/
theorem cleanup_active_match (st : Sqlite.State) (now : Int) (p : Sqlite.Poll)
    (hp : p ∈ (Sqlite.cleanup_old_polls st now).polls) (ha : p.is_active = true) :
    p.season_year = routesCurrentSeason now ∧
      p.week_number = routesCurrentWeek now := by
  unfold Sqlite.cleanup_old_polls at hp
  obtain ⟨q, _, hqe⟩ := List.mem_map.mp hp
  by_cases hc : (q.is_active && !(q.season_year == routesCurrentSeason now &&
      q.week_number == routesCurrentWeek now)) = true
  · rw [if_pos hc] at hqe
    rw [← hqe] at ha
    simp at ha
  · rw [if_neg hc] at hqe
    subst hqe
    simp only [ha, Bool.true_and, Bool.not_eq_true', Bool.not_eq_false] at hc
    simp only [Bool.and_eq_true, beq_iff_eq] at hc
    exact hc

/-- C9 (amended): ensure_current_poll_exists checks only for an active
    matching poll.  After the call every active poll belongs to the
    resolved (season_year, week_number); an active matching poll is
    returned unchanged together with the cleaned state; and when none is
    active, exactly one new active poll for the current week is appended,
    even if an inactive poll for that very week already exists. -/
theorem claim9_ensure_amended (st : Sqlite.State) (now : Int) :
    (∀ p ∈ (Sqlite.ensure_current_poll_exists st now).2.polls,
      p.is_active = true →
      p.season_year = routesCurrentSeason now ∧
        p.week_number = routesCurrentWeek now) ∧
    (∀ p, (Sqlite.cleanup_old_polls st now).polls.find? (fun q =>
        q.season_year == routesCurrentSeason now &&
        q.week_number == routesCurrentWeek now && q.is_active) = some p →
      ¬(routesCurrentWeek now ≤ 0) →
      Sqlite.ensure_current_poll_exists st now =
        (some p, Sqlite.cleanup_old_polls st now)) ∧
    (¬(routesCurrentWeek now ≤ 0) →
      (Sqlite.cleanup_old_polls st now).polls.find? (fun q =>
        q.season_year == routesCurrentSeason now &&
        q.week_number == routesCurrentWeek now && q.is_active) = none →
      (Sqlite.ensure_current_poll_exists st now).2.polls =
        (Sqlite.cleanup_old_polls st now).polls ++
          [⟨st.nextId, routesCurrentWeek now, routesCurrentSeason now, true⟩]) := by
  refine ⟨?_, ?_, ?_⟩
  · intro p hp ha
    unfold Sqlite.ensure_current_poll_exists at hp
    by_cases hcw : routesCurrentWeek now ≤ 0
    · rw [if_pos hcw] at hp
      exact cleanup_active_match st now p hp ha
    · rw [if_neg hcw] at hp
      cases hf : (Sqlite.cleanup_old_polls st now).polls.find? (fun q =>
          q.season_year == routesCurrentSeason now &&
          q.week_number == routesCurrentWeek now && q.is_active) with
      | some q =>
          rw [hf] at hp
          exact cleanup_active_match st now p hp ha
      | none =>
          rw [hf] at hp
          rcases List.mem_append.mp hp with hin | hnew
          · exact cleanup_active_match st now p hin ha
          · obtain rfl : p = ⟨st.nextId, routesCurrentWeek now,
                routesCurrentSeason now, true⟩ := by simpa using hnew
            exact ⟨rfl, rfl⟩
  · intro p hf hcw
    unfold Sqlite.ensure_current_poll_exists
    rw [if_neg hcw, hf]
  · intro hcw hf
    unfold Sqlite.ensure_current_poll_exists
    rw [if_neg hcw, hf]
    rfl

/-- Witness for C9 (amended): a state whose active week 1 poll already
    exists is returned unchanged at the week 1 instant. -/
theorem claim9_ensure_amended_witness :
    Sqlite.ensure_current_poll_exists freshState routesSeasonStart =
      (some ⟨1, 1, 2025, true⟩,
        Sqlite.cleanup_old_polls freshState routesSeasonStart) :=
  (claim9_ensure_amended freshState routesSeasonStart).2.1
    ⟨1, 1, 2025, true⟩ (by decide) (by decide)

/-- C9 (counterexample): at the week 1 instant, a state holding an
    inactive (and, the SQLAlchemy Poll model having no is_archived
    column, non-archived) poll for week 1 of 2025 ends the call with two
    polls for (2025, 1): the existing poll is not returned and a second
    one is created, so at most one non-archived poll per week is not
    preserved. -/
theorem claim9_duplicate_week_poll :
    routesCurrentWeek routesSeasonStart = 1 ∧
    (staleState.polls.filter (fun p =>
      p.season_year == (2025 : Int) && p.week_number == (1 : Int))).length = 1 ∧
    ((Sqlite.ensure_current_poll_exists staleState routesSeasonStart).2.polls.filter
      (fun p =>
        p.season_year == (2025 : Int) && p.week_number == (1 : Int))).length = 2 := by
  exact ⟨by decide, by decide, by decide⟩

/-- The denominator of an average-rank key is always positive. -/
theorem keyOf_den_pos (r : ResultRow) : 0 < (keyOf r).2 := by
  unfold keyOf
  split
  · exact Nat.one_pos
  · next h => exact Nat.pos_of_ne_zero h

/-- Membership in the first-occurrence scan: an element appears exactly
    when it is in the remaining input and not yet seen. -/
theorem mem_firstOccurAux (x : String) :
    ∀ (l : List String) (seen : List String),
      x ∈ firstOccurAux seen l ↔ (x ∈ l ∧ x ∉ seen)
  | [], seen => by simp [firstOccurAux]
  | y :: t, seen => by
      unfold firstOccurAux
      by_cases hy : y ∈ seen
      · rw [if_pos hy, mem_firstOccurAux x t seen]
        constructor
        · exact fun ⟨h1, h2⟩ => ⟨List.mem_cons_of_mem y h1, h2⟩
        · rintro ⟨h1, h2⟩
          rcases List.mem_cons.mp h1 with rfl | h1
          · exact absurd hy h2
          · exact ⟨h1, h2⟩
      · rw [if_neg hy]
        rw [List.mem_cons, mem_firstOccurAux x t (y :: seen)]
        constructor
        · rintro (h0 | ⟨h1, h2⟩)
          · subst h0
            exact ⟨List.mem_cons_self x t, hy⟩
          · exact ⟨List.mem_cons_of_mem y h1,
              fun hc => h2 (List.mem_cons_of_mem y hc)⟩
        · rintro ⟨h1, h2⟩
          by_cases hxy : x = y
          · exact Or.inl hxy
          · rcases List.mem_cons.mp h1 with rfl | h1
            · exact absurd rfl hxy
            · exact Or.inr ⟨h1, fun hc => by
                rcases List.mem_cons.mp hc with h | h
                · exact hxy h
                · exact h2 h⟩

/-- The names listed by the aggregation are exactly the voted names. -/
theorem mem_firstOccurrences (x : String) (l : List String) :
    x ∈ firstOccurrences l ↔ x ∈ l := by
  rw [firstOccurrences, mem_firstOccurAux]
  simp

/-- The aggregated row of a team keeps the team name. -/
theorem groupRow_team_name (rows : List VoteRow) (n : String) :
    (groupRow rows n).team_name = n := rfl

/-- A voted team always aggregates to a positive vote count. -/
theorem ranksFor_pos (rows : List VoteRow) (n : String)
    (h : ∃ v ∈ rows, v.team_name = n) : 0 < (ranksFor rows n).length := by
  obtain ⟨v, hv, hn⟩ := h
  unfold ranksFor
  rw [List.length_map]
  exact List.length_pos_iff_exists_mem.mpr
    ⟨v, List.mem_filter.mpr ⟨hv, by simp [hn]⟩⟩

/-- A positive vote count comes from at least one vote row. -/
theorem ranksFor_pos_iff (rows : List VoteRow) (n : String) :
    0 < (ranksFor rows n).length ↔ ∃ v ∈ rows, v.team_name = n := by
  constructor
  · intro h
    unfold ranksFor at h
    rw [List.length_map] at h
    obtain ⟨v, hv⟩ := List.length_pos_iff_exists_mem.mp h
    have := List.mem_filter.mp hv
    exact ⟨v, this.1, by simpa using this.2⟩
  · exact ranksFor_pos rows n

/-- On rows with positive vote counts, the cross-multiplication order is
    the order of the rational averages. -/
theorem byAvgRank_iff_avg (a b : ResultRow) (ha : 0 < a.vote_count)
    (hb : 0 < b.vote_count) :
    byAvgRank a b ↔ a.avg_rank ≤ b.avg_rank := by
  unfold byAvgRank keyOf ResultRow.avg_rank
  rw [if_neg (Nat.pos_iff_ne_zero.mp ha), if_neg (Nat.pos_iff_ne_zero.mp hb)]
  have ha2 : (0 : Rat) < (a.vote_count : Rat) := by exact_mod_cast ha
  have hb2 : (0 : Rat) < (b.vote_count : Rat) := by exact_mod_cast hb
  rw [div_le_div_iff ha2 hb2]
  constructor
  · intro h
    exact_mod_cast h
  · intro h
    exact_mod_cast h

/-- Two rows whose keys both equal the key of q are mutually ordered. -/
theorem byAvgRank_of_keyEq (q b c : ResultRow) (hb : keyEqB q b = true)
    (hc : keyEqB q c = true) : byAvgRank b c := by
  unfold keyEqB at hb hc
  unfold byAvgRank
  have hb2 : (keyOf q).1 * (keyOf b).2 = (keyOf b).1 * (keyOf q).2 := by
    simpa using hb
  have hc2 : (keyOf q).1 * (keyOf c).2 = (keyOf c).1 * (keyOf q).2 := by
    simpa using hc
  have hq : 0 < (keyOf q).2 := keyOf_den_pos q
  have hcalc : (keyOf b).1 * (keyOf c).2 * (keyOf q).2 =
      (keyOf c).1 * (keyOf b).2 * (keyOf q).2 := by
    calc (keyOf b).1 * (keyOf c).2 * (keyOf q).2
        = ((keyOf b).1 * (keyOf q).2) * (keyOf c).2 := by ring
      _ = ((keyOf q).1 * (keyOf b).2) * (keyOf c).2 := by rw [hb2]
      _ = ((keyOf q).1 * (keyOf c).2) * (keyOf b).2 := by ring
      _ = ((keyOf c).1 * (keyOf q).2) * (keyOf b).2 := by rw [hc2]
      _ = (keyOf c).1 * (keyOf b).2 * (keyOf q).2 := by ring
  exact le_of_eq (Nat.eq_of_mul_eq_mul_right hq hcalc)

/-- Inserting a row of the q-key class in front of the stable sort: the
    class filter gains the row at the front. -/
theorem filter_orderedInsert_pos (p : ResultRow → Bool) (a : ResultRow)
    (hpa : p a = true) (hcompat : ∀ b, p b = true → byAvgRank a b) :
    ∀ l : List ResultRow,
      (List.orderedInsert byAvgRank a l).filter p = a :: l.filter p
  | [] => by simp [hpa]
  | b :: t => by
      by_cases hab : byAvgRank a b
      · rw [List.orderedInsert_of_le byAvgRank t hab]
        simp [hpa]
      · have hpb : p b = false := by
          cases hpb2 : p b
          · rfl
          · exact absurd (hcompat b hpb2) hab
        simp only [List.orderedInsert, if_neg hab]
        rw [List.filter_cons, List.filter_cons]
        simp only [hpb]
        exact filter_orderedInsert_pos p a hpa hcompat t

/-- Inserting a row outside the q-key class leaves the class filter
    unchanged. -/
theorem filter_orderedInsert_neg (p : ResultRow → Bool) (a : ResultRow)
    (hpa : p a = false) :
    ∀ l : List ResultRow,
      (List.orderedInsert byAvgRank a l).filter p = l.filter p
  | [] => by simp [hpa]
  | b :: t => by
      by_cases hab : byAvgRank a b
      · rw [List.orderedInsert_of_le byAvgRank t hab]
        simp [hpa]
      · simp only [List.orderedInsert, if_neg hab]
        rw [List.filter_cons, List.filter_cons]
        cases hpb : p b
        · simp [filter_orderedInsert_neg p a hpa t]
        · simp [filter_orderedInsert_neg p a hpa t]

/-- The stable sort preserves the order of any single key class. -/
theorem filter_insertionSort (p : ResultRow → Bool)
    (hclass : ∀ b c, p b = true → p c = true → byAvgRank b c) :
    ∀ l : List ResultRow,
      (l.insertionSort byAvgRank).filter p = l.filter p
  | [] => rfl
  | a :: t => by
      show (List.orderedInsert byAvgRank a (t.insertionSort byAvgRank)).filter p =
        (a :: t).filter p
      cases hpa : p a
      · rw [filter_orderedInsert_neg p a hpa, filter_insertionSort p hclass t,
          List.filter_cons]
        simp [hpa]
      · rw [filter_orderedInsert_pos p a hpa (fun b hb => hclass a b hpa hb),
          filter_insertionSort p hclass t, List.filter_cons]
        simp [hpa]

/-- C3 (amended): the aggregation output is sorted ascending by the
    rational average rank; it is a permutation of the per-team group rows
    of the distinct voted names in first-appearance order; every output
    row is the group row of its team with a positive vote count (so
    zero-vote items never appear and counts and averages are the group
    size and mean); a name appears in the output exactly when it received
    a vote; and ties on the average keep first-appearance order (the sort
    is stable), rather than being broken by item name.  Determinism is
    immediate because the computation is a pure function of the stored
    vote rows. -/
theorem claim3_aggregation_amended (db : DB) (pid : Nat) :
    List.Sorted (fun a b : ResultRow => a.avg_rank ≤ b.avg_rank)
      (get_poll_results db pid) ∧
    (get_poll_results db pid).Perm
      ((firstOccurrences ((pollVotes db pid).map (fun v => v.team_name))).map
        (groupRow (pollVotes db pid))) ∧
    (∀ r ∈ get_poll_results db pid,
      r = groupRow (pollVotes db pid) r.team_name ∧ 0 < r.vote_count) ∧
    (∀ name, (∃ r ∈ get_poll_results db pid, r.team_name = name) ↔
      ∃ v ∈ pollVotes db pid, v.team_name = name) ∧
    (∀ q, (get_poll_results db pid).filter (keyEqB q) =
      ((firstOccurrences ((pollVotes db pid).map (fun v => v.team_name))).map
        (groupRow (pollVotes db pid))).filter (keyEqB q)) := by
  have hperm : (get_poll_results db pid).Perm
      ((firstOccurrences ((pollVotes db pid).map (fun v => v.team_name))).map
        (groupRow (pollVotes db pid))) :=
    List.perm_insertionSort byAvgRank _
  have hcontent : ∀ r ∈ get_poll_results db pid,
      r = groupRow (pollVotes db pid) r.team_name ∧ 0 < r.vote_count := by
    intro r hr
    have hr2 := hperm.mem_iff.mp hr
    obtain ⟨n, hn, hne⟩ := List.mem_map.mp hr2
    have hname : r.team_name = n := by
      rw [← hne]
      rfl
    have hvote : ∃ v ∈ pollVotes db pid, v.team_name = n := by
      obtain ⟨v, hv, hvn⟩ := List.mem_map.mp
        ((mem_firstOccurrences n _).mp hn)
      exact ⟨v, hv, hvn⟩
    constructor
    · rw [hname, ← hne]
    · rw [← hne]
      exact ranksFor_pos _ n hvote
  refine ⟨?_, hperm, hcontent, ?_, ?_⟩
  · have hsorted : List.Sorted byAvgRank (get_poll_results db pid) :=
      List.sorted_insertionSort byAvgRank _
    exact List.Pairwise.imp_of_mem
      (fun ha hb hab => (byAvgRank_iff_avg _ _
        (hcontent _ ha).2 (hcontent _ hb).2).mp hab) hsorted
  · intro name
    constructor
    · rintro ⟨r, hr, rfl⟩
      obtain ⟨heq, hpos⟩ := hcontent r hr
      rw [heq] at hpos
      exact (ranksFor_pos_iff _ _).mp hpos
    · intro hv
      refine ⟨groupRow (pollVotes db pid) name, ?_, rfl⟩
      refine hperm.mem_iff.mpr (List.mem_map_of_mem _ ?_)
      rw [mem_firstOccurrences]
      obtain ⟨v, hvm, hvn⟩ := hv
      exact List.mem_map.mpr ⟨v, hvm, hvn⟩
  · intro q
    exact filter_insertionSort (keyEqB q)
      (fun b c hb hc => byAvgRank_of_keyEq q b c hb hc) _

/-- Witness for C3 (amended): in the tie fixtures, Zebra is voted and
    therefore appears in the aggregation output. -/
theorem claim3_aggregation_amended_witness :
    ∃ r ∈ get_poll_results tieDB 1, r.team_name = "Zebra" :=
  ((claim3_aggregation_amended tieDB 1).2.2.2.1 "Zebra").mpr
    ⟨⟨1, 1, "Zebra", "", "", 1, ""⟩, by decide, rfl⟩

/-- Witness for C10: the bounds evaluated one hour after the routes anchor
    and one hour after the mysql anchor. -/
theorem claim10_week_resolver_bounds_witness :
    1 ≤ routesCurrentWeek (routesSeasonStart + 60) ∧
    1 ≤ mysqlCurrentWeek (mysqlSeasonStart + 60) :=
  ⟨(claim10_week_resolver_bounds (routesSeasonStart + 60)).1.2.2.2 (by omega),
   (claim10_week_resolver_bounds (mysqlSeasonStart + 60)).2.2.2.2 (by omega)⟩

end Wheredhego
